import Mathlib

/-!
# Verification of the `lol_custom_skill_matching_web` backend core

Shallow embedding of the Go backend of this repository:
rank-score conversion, the dual-window rate limiter, the retrying request
executor, the team balancing strategies, the lane-unique team split and the
skill-score aggregation.  Go machine integers are modelled as `Int` (with
`Int.tdiv` / `Int.tmod` for Go's truncating `/` and `%`); timestamps and
durations are modelled in integer milliseconds (resp. whole seconds for the
executor's sleeps), which is faithful because the code only compares and adds
durations.  Go `map[string]T` lookups (returning the zero value when absent)
become total functions with a default result.
-/

namespace LolMatch

/-! ## Rank score conversion (backend/cmd/app/main.go:30-48, CLI part_003:184-236)

`tierToInt`, `rankToInt`, `intToTier`, `intToRank` embed the four Go maps;
a missing key yields the Go zero value (`0` resp. `""`). -/

def tierToInt (tier : String) : Int :=
  match tier with
  | "IRON" => 1
  | "BRONZE" => 2
  | "SILVER" => 3
  | "GOLD" => 4
  | "PLATINUM" => 5
  | "EMERALD" => 6
  | "DIAMOND" => 7
  | "MASTER" => 8
  | "GRANDMASTER" => 9
  | "CHALLENGER" => 10
  | _ => 0

def rankToInt (rank : String) : Int :=
  match rank with
  | "IV" => 1
  | "III" => 2
  | "II" => 3
  | "I" => 4
  | _ => 0

def intToTier (i : Int) : String :=
  if i = 1 then "IRON"
  else if i = 2 then "BRONZE"
  else if i = 3 then "SILVER"
  else if i = 4 then "GOLD"
  else if i = 5 then "PLATINUM"
  else if i = 6 then "EMERALD"
  else if i = 7 then "DIAMOND"
  else if i = 8 then "MASTER"
  else if i = 9 then "GRANDMASTER"
  else if i = 10 then "CHALLENGER"
  else ""

def intToRank (i : Int) : String :=
  if i = 1 then "IV"
  else if i = 2 then "III"
  else if i = 3 then "II"
  else if i = 4 then "I"
  else ""

/-- `rankScore` from main.go:38-42 / part_003:222-226. -/
def rankScore (tier rank : String) (lp : Int) : Int :=
  ((tierToInt tier - 1) * 4 + (rankToInt rank - 1)) * 100 + lp

/-- `scoreToRank` from main.go:43-48 / part_003:229-236; Go's `/` and `%` on
`int` truncate toward zero, hence `Int.tdiv` / `Int.tmod`. -/
def scoreToRank (score : Int) : String × String × Int :=
  let tierIdx := score.tdiv 400 + 1
  let rankIdx := (score.tmod 400).tdiv 100 + 1
  let lp := score.tmod 100
  (intToTier tierIdx, intToRank rankIdx, lp)

/-- The ten tier names, in the order of the Go maps. -/
def tiers : List String :=
  ["IRON", "BRONZE", "SILVER", "GOLD", "PLATINUM",
   "EMERALD", "DIAMOND", "MASTER", "GRANDMASTER", "CHALLENGER"]

/-- The four division names. -/
def divisions : List String := ["I", "II", "III", "IV"]

/-- C2: for every valid tier, division and 0 ≤ lp ≤ 99,
`scoreToRank (rankScore t d lp) = (t, d, lp)`; in particular
`rankScore "GOLD" "II" 50 = 1450` and `scoreToRank 1450 = ("GOLD", "II", 50)`. -/
theorem C2_rank_score_roundtrip :
    (∀ t ∈ tiers, ∀ d ∈ divisions, ∀ lp : Nat, lp ≤ 99 →
      scoreToRank (rankScore t d (lp : Int)) = (t, d, (lp : Int)))
    ∧ rankScore "GOLD" "II" 50 = 1450
    ∧ scoreToRank 1450 = ("GOLD", "II", 50) := by
  refine ⟨?_, by decide, by decide⟩
  decide

/-- Witness for C2 at the concrete input of the claim. -/
theorem C2_rank_score_roundtrip_witness :
    ("GOLD" ∈ tiers ∧ "II" ∈ divisions ∧ (50 : Nat) ≤ 99)
    ∧ scoreToRank (rankScore "GOLD" "II" ((50 : Nat) : Int)) = ("GOLD", "II", ((50 : Nat) : Int)) :=
  ⟨⟨by decide, by decide, by decide⟩,
    C2_rank_score_roundtrip.1 "GOLD" (by decide) "II" (by decide) 50 (by decide)⟩

/-! ## Sliding-window rate limiter (part_003:250-308, main.go:51-94)

Timestamps are integer milliseconds.  `RiotLimiter.Wait` loops: prune both
logs, admit and record when both are under capacity, otherwise sleep and retry.
A retry after sleeping is simply a later attempt, so a run of the limiter is
modelled by the (nondecreasing) list of the times at which the loop body
executes; `runLimiter` returns the admitted (recorded) timestamps. -/

def oneSecond : Int := 1000

def twoMinutes : Int := 120000

/-- The in-place front pruning loop `for len(w) > 0 && w[0].Before(cutoff)`. -/
def prune (cutoff : Int) (log : List Int) : List Int :=
  log.dropWhile (fun ts => decide (ts < cutoff))

structure LimiterState where
  secWin : List Int
  twoMin : List Int

/-- One execution of the `Wait` loop body at time `now`: prune, then either
admit (recording `now` in both logs) or deny (the caller sleeps and retries). -/
def waitStep (now : Int) (st : LimiterState) : Bool × LimiterState :=
  let s := prune (now - oneSecond) st.secWin
  let t := prune (now - twoMinutes) st.twoMin
  if s.length < 20 ∧ t.length < 100 then
    (true, ⟨s ++ [now], t ++ [now]⟩)
  else
    (false, ⟨s, t⟩)

/-- Run the limiter over the given loop-body execution times, returning the
admitted timestamps. -/
def runLimiter : List Int → LimiterState → List Int
  | [], _ => []
  | now :: rest, st =>
    let r := waitStep now st
    (if r.1 then [now] else []) ++ runLimiter rest r.2

/-- Closed sliding window of width `w` starting at `t`. -/
def inWindow (t w a : Int) : Bool := decide (t ≤ a) && decide (a ≤ t + w)

theorem prune_sorted_eq_filter (c : Int) (l : List Int) (h : l.Pairwise (· ≤ ·)) :
    prune c l = l.filter (fun a => decide (c ≤ a)) := by
  induction l with
  | nil => rfl
  | cons x xs ih =>
    rcases List.pairwise_cons.mp h with ⟨hx, hxs⟩
    by_cases hxc : x < c
    · have hfx : ¬ (c ≤ x) := not_le.mpr hxc
      simp only [prune, List.dropWhile_cons, List.filter_cons] at ih ⊢
      simp [hxc, hfx, ih hxs]
    · have hcx : c ≤ x := not_lt.mp hxc
      have hall : ∀ a ∈ xs, (fun a => decide (c ≤ a)) a = true := by
        intro a ha
        simp [le_trans hcx (hx a ha)]
      simp only [prune, List.dropWhile_cons, List.filter_cons]
      simp [hxc, hcx, List.filter_eq_self.mpr hall]

theorem prune_filter_shift (l : List Int) (h : l.Pairwise (· ≤ ·)) {c c' : Int}
    (hcc : c' ≤ c) :
    prune c (l.filter (fun a => decide (c' ≤ a))) = l.filter (fun a => decide (c ≤ a)) := by
  rw [prune_sorted_eq_filter c _ (List.Pairwise.filter _ h), List.filter_filter]
  refine List.filter_congr ?_
  intro a _
  by_cases hca : c ≤ a
  · simp [hca, le_trans hcc hca]
  · simp [hca]

/-- Invariant tying the limiter state to the history of admitted timestamps:
after a loop-body execution at time `now`, each log is exactly the filtered
view of the admitted history over its own window. -/
def LimInv (now : Int) (admitted : List Int) (st : LimiterState) : Prop :=
  admitted.Pairwise (· ≤ ·) ∧ (∀ a ∈ admitted, a ≤ now) ∧
  st.secWin = admitted.filter (fun a => decide (now - oneSecond ≤ a)) ∧
  st.twoMin = admitted.filter (fun a => decide (now - twoMinutes ≤ a))

/-- Both sliding-window caps hold for a list of admitted timestamps. -/
def WindowBound (admitted : List Int) : Prop :=
  ∀ t : Int, admitted.countP (inWindow t oneSecond) ≤ 20 ∧
    admitted.countP (inWindow t twoMinutes) ≤ 100

theorem countP_window_le (admitted : List Int) {now w t : Int}
    (hwin : inWindow t w now = true) :
    admitted.countP (inWindow t w) ≤ admitted.countP (fun a => decide (now - w ≤ a)) := by
  refine List.countP_mono_left ?_
  intro a _ ha
  simp only [inWindow, Bool.and_eq_true, decide_eq_true_eq] at ha hwin ⊢
  omega

theorem runLimiter_bound (attempts : List Int) :
    ∀ (st : LimiterState) (admitted : List Int) (now : Int),
      attempts.Pairwise (· ≤ ·) → (∀ x ∈ attempts, now ≤ x) →
      LimInv now admitted st → WindowBound admitted →
      WindowBound (admitted ++ runLimiter attempts st) := by
  induction attempts with
  | nil =>
    intro st admitted now _ _ _ hWB
    simpa [runLimiter] using hWB
  | cons now' rest ih =>
    intro st admitted now hsorted hlow hinv hWB
    obtain ⟨hadmsort, hadmle, hsec, htwo⟩ := hinv
    rcases List.pairwise_cons.mp hsorted with ⟨hrest_ge, hrest_sorted⟩
    have hnow : now ≤ now' := hlow now' (List.mem_cons_self _ _)
    have hsec' : prune (now' - oneSecond) st.secWin
        = admitted.filter (fun a => decide (now' - oneSecond ≤ a)) := by
      rw [hsec]
      exact prune_filter_shift admitted hadmsort (by omega)
    have htwo' : prune (now' - twoMinutes) st.twoMin
        = admitted.filter (fun a => decide (now' - twoMinutes ≤ a)) := by
      rw [htwo]
      exact prune_filter_shift admitted hadmsort (by omega)
    have hadmle' : ∀ a ∈ admitted, a ≤ now' := fun a ha => le_trans (hadmle a ha) hnow
    by_cases hcap : (prune (now' - oneSecond) st.secWin).length < 20 ∧
        (prune (now' - twoMinutes) st.twoMin).length < 100
    · -- admitted branch
      have hrun : runLimiter (now' :: rest) st
          = now' :: runLimiter rest
              ⟨prune (now' - oneSecond) st.secWin ++ [now'],
               prune (now' - twoMinutes) st.twoMin ++ [now']⟩ := by
        simp [runLimiter, waitStep, hcap]
      rw [hrun, ← List.singleton_append, ← List.append_assoc]
      refine ih _ (admitted ++ [now']) now' hrest_sorted hrest_ge ?_ ?_
      · refine ⟨?_, ?_, ?_, ?_⟩
        · exact List.pairwise_append.mpr
            ⟨hadmsort, List.pairwise_singleton _ _,
              fun a ha b hb => by
                rw [List.mem_singleton] at hb
                exact hb ▸ hadmle' a ha⟩
        · intro a ha
          rcases List.mem_append.mp ha with h | h
          · exact hadmle' a h
          · rw [List.mem_singleton] at h
            omega
        · rw [hsec', List.filter_append]
          simp [oneSecond]
        · rw [htwo', List.filter_append]
          simp [twoMinutes]
      · intro t
        have hcount : ∀ w : Int, (admitted ++ [now']).countP (inWindow t w)
            = admitted.countP (inWindow t w) + List.countP (inWindow t w) [now'] :=
          fun w => List.countP_append _ _ _
        constructor
        · rw [hcount, List.countP_cons, List.countP_nil]
          by_cases hin : inWindow t oneSecond now' = true
          · have h1 : admitted.countP (inWindow t oneSecond)
                ≤ admitted.countP (fun a => decide (now' - oneSecond ≤ a)) :=
              countP_window_le admitted hin
            have h2 : admitted.countP (fun a => decide (now' - oneSecond ≤ a)) ≤ 19 := by
              rw [List.countP_eq_length_filter, ← hsec']
              omega
            simp [hin]
            omega
          · simp [hin]
            have := (hWB t).1
            omega
        · rw [hcount, List.countP_cons, List.countP_nil]
          by_cases hin : inWindow t twoMinutes now' = true
          · have h1 : admitted.countP (inWindow t twoMinutes)
                ≤ admitted.countP (fun a => decide (now' - twoMinutes ≤ a)) :=
              countP_window_le admitted hin
            have h2 : admitted.countP (fun a => decide (now' - twoMinutes ≤ a)) ≤ 99 := by
              rw [List.countP_eq_length_filter, ← htwo']
              omega
            simp [hin]
            omega
          · simp [hin]
            have := (hWB t).2
            omega
    · -- denied branch: state is pruned, nothing recorded
      have hrun : runLimiter (now' :: rest) st
          = runLimiter rest
              ⟨prune (now' - oneSecond) st.secWin,
               prune (now' - twoMinutes) st.twoMin⟩ := by
        simp [runLimiter, waitStep, hcap]
      rw [hrun]
      exact ih _ admitted now' hrest_sorted hrest_ge
        ⟨hadmsort, hadmle', hsec', htwo'⟩ hWB

/-- C1: for every (time-ordered) sequence of executions of the limiter's wait
loop, the recorded timestamps never exceed 20 in any closed sliding 1-second
window nor 100 in any closed sliding 120-second window. -/
theorem C1_limiter_dual_window (attempts : List Int)
    (h : attempts.Pairwise (· ≤ ·)) (t : Int) :
    (runLimiter attempts ⟨[], []⟩).countP (inWindow t oneSecond) ≤ 20 ∧
    (runLimiter attempts ⟨[], []⟩).countP (inWindow t twoMinutes) ≤ 100 := by
  cases attempts with
  | nil => simp [runLimiter]
  | cons a rest =>
    have hlow : ∀ x ∈ a :: rest, a ≤ x := by
      intro x hx
      rcases List.mem_cons.mp hx with rfl | hx
      · exact le_refl _
      · exact List.rel_of_pairwise_cons h hx
    have hinv : LimInv a [] ⟨[], []⟩ := ⟨List.Pairwise.nil, by simp, rfl, rfl⟩
    have hWB : WindowBound [] := fun t => by simp [WindowBound]
    have := runLimiter_bound (a :: rest) ⟨[], []⟩ [] a h hlow hinv hWB t
    simpa using this

/-- Witness for C1: a concrete burst of 25 attempts at the same instant. -/
theorem C1_limiter_dual_window_witness :
    (List.replicate 25 (0 : Int)).Pairwise (· ≤ ·) ∧
    ((runLimiter (List.replicate 25 (0 : Int)) ⟨[], []⟩).countP (inWindow 0 oneSecond) ≤ 20 ∧
     (runLimiter (List.replicate 25 (0 : Int)) ⟨[], []⟩).countP (inWindow 0 twoMinutes) ≤ 100) :=
  ⟨by decide, C1_limiter_dual_window (List.replicate 25 (0 : Int)) (by decide) 0⟩

/-! ## Team balancing (part_002:113-166 / part_003:112-165)

`BalanceTeams` works on the players' skill scores only (in the repository the
scores of the integral `skill_score` pipeline); a roster is modelled by its
list of scores.  `sort.Slice(..., arr[i].s > arr[j].s)` is a descending sort
(ties in unspecified order; modelled by `mergeSort`). -/

def sortDesc (players : List Int) : List Int :=
  players.insertionSort (fun a b => b ≤ a)

/-- One iteration of the greedy fallback loop of `BalanceTeams`
(part_003:155-163): append the next score to the team whose running sum is
not larger, ties to team A. -/
def greedyStep : List Int × List Int × Int × Int → Int → List Int × List Int × Int × Int
  | (teamA, teamB, sumA, sumB), s =>
    if sumA ≤ sumB then (teamA ++ [s], teamB, sumA + s, sumB)
    else (teamA, teamB ++ [s], sumA, sumB + s)

/-- The greedy fallback of `BalanceTeams` (part_003:144-165). -/
def balanceGreedy (players : List Int) : List Int × List Int :=
  (((sortDesc players).foldl greedyStep ([], [], 0, 0)).1,
   ((sortDesc players).foldl greedyStep ([], [], 0, 0)).2.1)

/-- Spec-side greedy ("sort descending by skill score; repeatedly assign the
next player to whichever team currently has the lower score sum, ties broken
in favor of team A"), recomputing the team sums from the teams themselves. -/
def greedySpecGo : List Int → List Int → List Int → List Int × List Int
  | [], a, b => (a, b)
  | s :: rest, a, b =>
    if a.sum ≤ b.sum then greedySpecGo rest (a ++ [s]) b
    else greedySpecGo rest a (b ++ [s])

def greedyAlternatingSpec (players : List Int) : List Int × List Int :=
  greedySpecGo (sortDesc players) [] []

theorem greedy_fold_eq_spec (l : List Int) :
    ∀ a b : List Int,
      l.foldl greedyStep (a, b, a.sum, b.sum)
        = ((greedySpecGo l a b).1, (greedySpecGo l a b).2,
           (greedySpecGo l a b).1.sum, (greedySpecGo l a b).2.sum) := by
  induction l with
  | nil => intro a b; rfl
  | cons s rest ih =>
    intro a b
    by_cases h : a.sum ≤ b.sum
    · have h1 : (a ++ [s]).sum = a.sum + s := by simp
      calc (s :: rest).foldl greedyStep (a, b, a.sum, b.sum)
          = rest.foldl greedyStep (a ++ [s], b, (a ++ [s]).sum, b.sum) := by
            simp [List.foldl_cons, greedyStep, h, h1]
        _ = _ := by rw [ih (a ++ [s]) b]; simp [greedySpecGo, h]
    · have h1 : (b ++ [s]).sum = b.sum + s := by simp
      calc (s :: rest).foldl greedyStep (a, b, a.sum, b.sum)
          = rest.foldl greedyStep (a, b ++ [s], a.sum, (b ++ [s]).sum) := by
            simp [List.foldl_cons, greedyStep, h, h1]
        _ = _ := by rw [ih a (b ++ [s])]; simp [greedySpecGo, h]

/-- C3: the greedy strategy sorts descending and assigns each successive player
to the team with the currently lower score sum (ties to team A); on scores
{1500,1300,1200,1000} it returns teamA = {1500,1000}, teamB = {1300,1200},
sums 2500 = 2500, difference 0. -/
theorem C3_greedy_alternating :
    (∀ players : List Int, 2 ≤ players.length →
        balanceGreedy players = greedyAlternatingSpec players)
    ∧ balanceGreedy [1500, 1300, 1200, 1000] = ([1500, 1000], [1300, 1200])
    ∧ (1500 + 1000 : Int) = 2500 ∧ (1300 + 1200 : Int) = 2500
    ∧ |(1500 + 1000 : Int) - (1300 + 1200)| = 0 := by
  refine ⟨?_, by decide, by decide, by decide, by decide⟩
  intro players _
  have h := greedy_fold_eq_spec (sortDesc players) [] []
  simp only [List.sum_nil] at h
  unfold balanceGreedy greedyAlternatingSpec
  rw [h]

/-- Witness for C3 on the roster of the claim. -/
theorem C3_greedy_alternating_witness :
    2 ≤ ([1500, 1300, 1200, 1000] : List Int).length
    ∧ balanceGreedy [1500, 1300, 1200, 1000]
        = greedyAlternatingSpec [1500, 1300, 1200, 1000] :=
  ⟨by decide, C3_greedy_alternating.1 [1500, 1300, 1200, 1000] (by decide)⟩

/-! ### Exact minimal-difference enumeration (part_003:112-143)

`for mask := 0; mask < 1<<n; mask++` assigns player `i` to team A when bit `i`
of `mask` is set; unequal team sizes are skipped; the first strict minimum of
`|sumA - sumB|` is kept (`bestDiff` starts at `MaxFloat64`, so the first
equal-size candidate always replaces it — modelled by an `Option` accumulator). -/

def maskSplitAux (mask : Nat) : Nat → List Int → List Int × List Int
  | _, [] => ([], [])
  | i, p :: rest =>
    let r := maskSplitAux mask (i + 1) rest
    if mask.testBit i then (p :: r.1, r.2) else (r.1, p :: r.2)

def maskSplit (mask : Nat) (players : List Int) : List Int × List Int :=
  maskSplitAux mask 0 players

def diffOf (c : List Int × List Int) : Int := |c.1.sum - c.2.sum|

/-- Whether a mask produces an equal-size split (the `len(teamA) != len(teamB)`
skip in the Go loop). -/
def maskOk (players : List Int) (mask : Nat) : Prop :=
  (maskSplit mask players).1.length = (maskSplit mask players).2.length

instance (players : List Int) (mask : Nat) : Decidable (maskOk players mask) := by
  unfold maskOk
  infer_instance

def exactStep (players : List Int) (best : Option (List Int × List Int))
    (mask : Nat) : Option (List Int × List Int) :=
  let c := maskSplit mask players
  if c.1.length = c.2.length then
    match best with
    | none => some c
    | some b => if diffOf c < diffOf b then some c else some b
  else best

def exactBest (players : List Int) : Option (List Int × List Int) :=
  (List.range (2 ^ players.length)).foldl (exactStep players) none

/-- `BalanceTeams` (part_003:112-165): exhaustive equal-size enumeration for
`n ≤ 10` (`if len(bestA) > 0 { return bestA, bestB }`), greedy otherwise. -/
def BalanceTeams (players : List Int) : List Int × List Int :=
  if players.length ≤ 10 then
    match exactBest players with
    | some c => if 0 < c.1.length then c else balanceGreedy players
    | none => balanceGreedy players
  else balanceGreedy players

theorem exactStep_cases (players : List Int) (acc : Option (List Int × List Int))
    (m : Nat) :
    exactStep players acc m = acc ∨
      (maskOk players m ∧ exactStep players acc m = some (maskSplit m players)) := by
  unfold exactStep maskOk
  by_cases hok : (maskSplit m players).1.length = (maskSplit m players).2.length
  · cases acc with
    | none => exact Or.inr ⟨hok, by simp [hok]⟩
    | some b =>
      by_cases hlt : diffOf (maskSplit m players) < diffOf b
      · exact Or.inr ⟨hok, by simp [hok, hlt]⟩
      · exact Or.inl (by simp [hok, hlt])
  · exact Or.inl (by simp [hok])

theorem exactStep_some_le (players : List Int) {acc : Option (List Int × List Int)}
    {b : List Int × List Int} (h : acc = some b) (m : Nat) :
    ∃ b', exactStep players acc m = some b' ∧ diffOf b' ≤ diffOf b := by
  subst h
  unfold exactStep
  by_cases hok : (maskSplit m players).1.length = (maskSplit m players).2.length
  · by_cases hlt : diffOf (maskSplit m players) < diffOf b
    · exact ⟨maskSplit m players, by simp [hok, hlt], le_of_lt hlt⟩
    · exact ⟨b, by simp [hok, hlt], le_refl _⟩
  · exact ⟨b, by simp [hok], le_refl _⟩

theorem exactStep_ok_le (players : List Int) {m : Nat} (hok : maskOk players m)
    (acc : Option (List Int × List Int)) :
    ∃ b', exactStep players acc m = some b'
      ∧ diffOf b' ≤ diffOf (maskSplit m players) := by
  unfold maskOk at hok
  unfold exactStep
  cases acc with
  | none => exact ⟨maskSplit m players, by simp [hok], le_refl _⟩
  | some b =>
    by_cases hlt : diffOf (maskSplit m players) < diffOf b
    · exact ⟨maskSplit m players, by simp [hok, hlt], le_refl _⟩
    · exact ⟨b, by simp [hok, hlt], not_lt.mp hlt⟩

theorem exact_fold_some_le (players : List Int) (l : List Nat) :
    ∀ (acc : Option (List Int × List Int)) (b : List Int × List Int),
      acc = some b →
      ∃ c, l.foldl (exactStep players) acc = some c ∧ diffOf c ≤ diffOf b := by
  induction l with
  | nil =>
    intro acc b h
    exact ⟨b, by simp [h], le_refl _⟩
  | cons m rest ih =>
    intro acc b h
    obtain ⟨b', hstep, hle⟩ := exactStep_some_le players h m
    obtain ⟨c, hfold, hle'⟩ := ih (exactStep players acc m) b' hstep
    exact ⟨c, by simpa using hfold, le_trans hle' hle⟩

theorem exact_fold_from (players : List Int) (l : List Nat) :
    ∀ (acc : Option (List Int × List Int)) (c : List Int × List Int),
      l.foldl (exactStep players) acc = some c →
      acc = some c ∨ ∃ m ∈ l, maskOk players m ∧ c = maskSplit m players := by
  induction l with
  | nil =>
    intro acc c h
    exact Or.inl (by simpa using h)
  | cons m rest ih =>
    intro acc c h
    simp only [List.foldl_cons] at h
    rcases ih (exactStep players acc m) c h with hacc | ⟨m', hm', hok', hc'⟩
    · rcases exactStep_cases players acc m with heq | ⟨hok, heq⟩
      · exact Or.inl (heq ▸ hacc)
      · refine Or.inr ⟨m, List.mem_cons_self _ _, hok, ?_⟩
        rw [heq] at hacc
        exact (Option.some_injective _ hacc).symm
    · exact Or.inr ⟨m', List.mem_cons_of_mem _ hm', hok', hc'⟩

theorem exact_fold_min (players : List Int) (l : List Nat) :
    ∀ (acc : Option (List Int × List Int)) (c : List Int × List Int),
      l.foldl (exactStep players) acc = some c →
      ∀ m ∈ l, maskOk players m → diffOf c ≤ diffOf (maskSplit m players) := by
  induction l with
  | nil =>
    intro acc c _ m hm
    exact absurd hm (List.not_mem_nil m)
  | cons m0 rest ih =>
    intro acc c h m hm hok
    simp only [List.foldl_cons] at h
    rcases List.mem_cons.mp hm with rfl | hmem
    · obtain ⟨b', hstep, hle⟩ := exactStep_ok_le players hok acc
      obtain ⟨c', hfold, hle'⟩ := exact_fold_some_le players rest _ b' hstep
      rw [h] at hfold
      cases Option.some_injective _ hfold
      exact le_trans hle' hle
    · exact ih (exactStep players acc m0) c h m hmem hok

theorem exact_fold_none (players : List Int) (l : List Nat)
    (hno : ∀ m ∈ l, ¬ maskOk players m) :
    l.foldl (exactStep players) none = none := by
  induction l with
  | nil => rfl
  | cons m rest ih =>
    have hm : ¬ maskOk players m := hno m (List.mem_cons_self _ _)
    have hstep : exactStep players none m = none := by
      rcases exactStep_cases players none m with heq | ⟨hok, _⟩
      · exact heq
      · exact absurd hok hm
    simp only [List.foldl_cons, hstep]
    exact ih (fun m' hm' => hno m' (List.mem_cons_of_mem _ hm'))

theorem exact_fold_some_of_ok (players : List Int) (l : List Nat) :
    ∀ (acc : Option (List Int × List Int)),
      ((∃ m ∈ l, maskOk players m) ∨ ∃ b, acc = some b) →
      ∃ c, l.foldl (exactStep players) acc = some c := by
  induction l with
  | nil =>
    intro acc h
    rcases h with ⟨m, hm, _⟩ | ⟨b, hb⟩
    · exact absurd hm (List.not_mem_nil m)
    · exact ⟨b, by simpa using hb⟩
  | cons m0 rest ih =>
    intro acc h
    simp only [List.foldl_cons]
    rcases h with ⟨m, hm, hok⟩ | ⟨b, hb⟩
    · rcases List.mem_cons.mp hm with rfl | hmem
      · obtain ⟨b', hstep, _⟩ := exactStep_ok_le players hok acc
        exact ih _ (Or.inr ⟨b', hstep⟩)
      · rcases exactStep_cases players acc m0 with heq | ⟨_, heq⟩
        · exact ih _ (heq ▸ Or.inl ⟨m, hmem, hok⟩)
        · exact ih _ (Or.inr ⟨_, heq⟩)
    · obtain ⟨b', hstep, _⟩ := exactStep_some_le players hb m0
      exact ih _ (Or.inr ⟨b', hstep⟩)

theorem maskSplitAux_length (mask : Nat) :
    ∀ (l : List Int) (i : Nat),
      (maskSplitAux mask i l).1.length + (maskSplitAux mask i l).2.length
        = l.length := by
  intro l
  induction l with
  | nil => intro i; rfl
  | cons p rest ih =>
    intro i
    by_cases hbit : mask.testBit i
    · simp only [maskSplitAux]
      simp only [hbit, if_true, List.length_cons]
      have := ih (i + 1)
      omega
    · simp only [maskSplitAux]
      simp [hbit]
      have := ih (i + 1)
      omega

theorem maskSplitAux_lowbits (k : Nat) :
    ∀ (l : List Int) (i : Nat),
      ((maskSplitAux (2 ^ k - 1) i l).1).length = min l.length (k - i) := by
  intro l
  induction l with
  | nil => intro i; simp [maskSplitAux]
  | cons p rest ih =>
    intro i
    have hbit : (2 ^ k - 1).testBit i = decide (i < k) :=
      Nat.testBit_two_pow_sub_one k i
    by_cases hik : i < k
    · have hb : (2 ^ k - 1).testBit i = true := by simp [hbit, hik]
      simp only [maskSplitAux]
      simp only [hb, if_true, List.length_cons]
      have := ih (i + 1)
      omega
    · have hb : (2 ^ k - 1).testBit i = false := by simp [hbit, hik]
      simp only [maskSplitAux]
      simp [hb]
      have := ih (i + 1)
      omega

/-- C4: for an even roster of size ≤ 10 `BalanceTeams` returns an equal-size
split (n/2 and n/2) realising the minimum score-sum difference over all
equal-size mask splits; for odd sizes or size > 10 it falls back to greedy. -/
theorem C4_exact_minimal_difference :
    (∀ players : List Int, players.length % 2 = 0 → players.length ≤ 10 →
      (BalanceTeams players).1.length = players.length / 2 ∧
      (BalanceTeams players).2.length = players.length / 2 ∧
      (∃ m < 2 ^ players.length, maskSplit m players = BalanceTeams players) ∧
      (∀ m < 2 ^ players.length, maskOk players m →
        diffOf (BalanceTeams players) ≤ diffOf (maskSplit m players)))
    ∧ (∀ players : List Int, players.length % 2 = 1 ∨ 10 < players.length →
        BalanceTeams players = balanceGreedy players) := by
  constructor
  · intro players heven hle
    rcases Nat.eq_zero_or_pos players.length with hzero | hpos
    · have hnil : players = [] := List.eq_nil_of_length_eq_zero hzero
      subst hnil
      refine ⟨by decide, by decide, ⟨0, by decide, by decide⟩, ?_⟩
      intro m hm _
      have hm0 : m = 0 := by simpa using hm
      subst hm0
      exact le_refl _
    · set n := players.length with hn
      have hhalf : 1 ≤ n / 2 := by omega
      -- the low-bits mask witnesses an equal-size split
      have hmask_lt : 2 ^ (n / 2) - 1 < 2 ^ n := by
        have h1 : 2 ^ (n / 2) ≤ 2 ^ n := Nat.pow_le_pow_right (by omega) (by omega)
        have h2 : 0 < 2 ^ (n / 2) := Nat.two_pow_pos _
        omega
      have hlowA : (maskSplit (2 ^ (n / 2) - 1) players).1.length = n / 2 := by
        unfold maskSplit
        rw [maskSplitAux_lowbits (n / 2) players 0]
        omega
      have hlow_ok : maskOk players (2 ^ (n / 2) - 1) := by
        unfold maskOk
        have := maskSplitAux_length (2 ^ (n / 2) - 1) players 0
        unfold maskSplit
        unfold maskSplit at hlowA
        omega
      have hex : ∃ m ∈ List.range (2 ^ n), maskOk players m :=
        ⟨2 ^ (n / 2) - 1, List.mem_range.mpr hmask_lt, hlow_ok⟩
      obtain ⟨c, hc⟩ := exact_fold_some_of_ok players (List.range (2 ^ n)) none
        (Or.inl hex)
      have hcbest : exactBest players = some c := hc
      rcases exact_fold_from players (List.range (2 ^ n)) none c hc with hbad | hfrom
      · exact absurd hbad (by simp)
      obtain ⟨m₀, hm₀mem, hm₀ok, hm₀eq⟩ := hfrom
      have hclen : c.1.length = n / 2 ∧ c.2.length = n / 2 := by
        unfold maskOk at hm₀ok
        have hsum := maskSplitAux_length m₀ players 0
        unfold maskSplit at hm₀ok hm₀eq
        rw [hm₀eq]
        constructor <;> omega
      have hres : BalanceTeams players = c := by
        unfold BalanceTeams
        rw [if_pos hle, hcbest]
        show (if 0 < c.1.length then c else balanceGreedy players) = c
        rw [if_pos (show 0 < c.1.length by omega)]
      refine ⟨by rw [hres]; exact hclen.1, by rw [hres]; exact hclen.2, ?_, ?_⟩
      · exact ⟨m₀, List.mem_range.mp hm₀mem, by rw [hres, hm₀eq]⟩
      · intro m hm hok
        rw [hres]
        exact exact_fold_min players (List.range (2 ^ n)) none c hc m
          (List.mem_range.mpr hm) hok
  · intro players hcase
    rcases hcase with hodd | hbig
    · unfold BalanceTeams
      by_cases hle : players.length ≤ 10
      · rw [if_pos hle]
        have hnone : exactBest players = none := by
          apply exact_fold_none
          intro m _ hok
          unfold maskOk at hok
          have := maskSplitAux_length m players 0
          unfold maskSplit at hok
          omega
        rw [hnone]
      · rw [if_neg hle]
    · unfold BalanceTeams
      rw [if_neg (by omega)]

/-- Witness for C4 at the roster {1500,1300,1200,1000}. -/
theorem C4_exact_minimal_difference_witness :
    (([1500, 1300, 1200, 1000] : List Int).length % 2 = 0
      ∧ ([1500, 1300, 1200, 1000] : List Int).length ≤ 10)
    ∧ ((BalanceTeams [1500, 1300, 1200, 1000]).1.length = 2
      ∧ (BalanceTeams [1500, 1300, 1200, 1000]).2.length = 2
      ∧ (∃ m < 2 ^ ([1500, 1300, 1200, 1000] : List Int).length,
          maskSplit m [1500, 1300, 1200, 1000] = BalanceTeams [1500, 1300, 1200, 1000])
      ∧ (∀ m < 2 ^ ([1500, 1300, 1200, 1000] : List Int).length,
          maskOk [1500, 1300, 1200, 1000] m →
          diffOf (BalanceTeams [1500, 1300, 1200, 1000])
            ≤ diffOf (maskSplit m [1500, 1300, 1200, 1000]))) :=
  ⟨⟨by decide, by decide⟩,
    C4_exact_minimal_difference.1 [1500, 1300, 1200, 1000] (by decide) (by decide)⟩

/-! ## Resilient request executor (part_003:397-477, main.go:96-159)

`doRequestWithRetry` is driven by a script: one entry per `client.Do` call,
`none` for a transport error (`err != nil`, `resp == nil`), `some r` for a
response with status `r.status` and parsed `Retry-After` header
`r.retryAfter` (in seconds; `none` when absent or non-numeric).  Durations are
whole seconds.  The trace records the attempts made and the actual sleeps
performed (429 sleeps and backoff sleeps separately).  A `none` result means
the script was exhausted while the loop was still running. -/

structure HttpResp where
  status : Nat
  retryAfter : Option Nat
deriving DecidableEq

inductive ReqOutcome
  | resp (status : Nat)
  | skip
  | err (lastStatus : Int)
deriving DecidableEq

structure RunTrace where
  attempts : Nat
  sleeps429 : List Nat
  backoffSleeps : List Nat
deriving DecidableEq

def doRequestWithRetry (skipOnLimit : Bool) (maxRetry : Int) :
    List (Option HttpResp) → Nat → Int → Nat → RunTrace → Option ReqOutcome × RunTrace
  | [], _, _, _, trace => (none, trace)
  | e :: rest, backoff, lastStatus, tries, trace =>
    let tries' := tries + 1
    let trace' := { trace with attempts := trace.attempts + 1 }
    match e with
    | some r =>
      if r.status = 200 then (some (.resp 200), trace')
      else
        let ls : Int := r.status
        if r.status = 404 then (some (.resp 404), trace')
        else if r.status = 429 then
          let w0 : Nat := match r.retryAfter with | some v => v | none => 0
          let wait : Nat := if w0 = 0 then 2 else w0
          if skipOnLimit then (some .skip, trace')
          else doRequestWithRetry skipOnLimit maxRetry rest backoff ls tries'
            { trace' with sleeps429 := trace'.sleeps429 ++ [wait] }
        else if 500 ≤ r.status ∧ r.status < 600 then
          if skipOnLimit then (some .skip, trace')
          else if 0 < maxRetry ∧ maxRetry ≤ (tries' : Int) then (some (.err ls), trace')
          else doRequestWithRetry skipOnLimit maxRetry rest
            (if backoff < 30 then backoff * 2 else backoff) ls tries'
            { trace' with backoffSleeps := trace'.backoffSleeps ++ [backoff] }
        else
          if skipOnLimit then (some .skip, trace')
          else if 0 < maxRetry ∧ maxRetry ≤ (tries' : Int) then (some (.err ls), trace')
          else doRequestWithRetry skipOnLimit maxRetry rest
            (if backoff < 30 then backoff * 2 else backoff) ls tries'
            { trace' with backoffSleeps := trace'.backoffSleeps ++ [backoff] }
    | none =>
      if skipOnLimit then (some .skip, trace')
      else if 0 < maxRetry ∧ maxRetry ≤ (tries' : Int) then (some (.err lastStatus), trace')
      else doRequestWithRetry skipOnLimit maxRetry rest
        (if backoff < 30 then backoff * 2 else backoff) lastStatus tries'
        { trace' with backoffSleeps := trace'.backoffSleeps ++ [backoff] }

/-- A run from the initial state (`backoff = 1s`, `lastStatus = 0`, `tries = 0`,
empty trace). -/
def execRun (skipOnLimit : Bool) (maxRetry : Int) (script : List (Option HttpResp)) :
    Option ReqOutcome × RunTrace :=
  doRequestWithRetry skipOnLimit maxRetry script 1 0 0 ⟨0, [], []⟩

/-- C6: with `maxRetry = 3` and every response a 500, the executor performs
exactly 3 attempts and then fails carrying the last observed status 500. -/
theorem C6_three_attempts_then_error (script : List (Option HttpResp))
    (hall : ∀ e ∈ script, e = some ⟨500, none⟩) (hlen : 3 ≤ script.length) :
    (execRun false 3 script).1 = some (.err 500)
    ∧ (execRun false 3 script).2.attempts = 3 := by
  cases script with
  | nil => simp at hlen
  | cons a s1 =>
    cases s1 with
    | nil => simp at hlen
    | cons b s2 =>
      cases s2 with
      | nil => simp at hlen
      | cons c rest =>
        have ha := hall a (by simp)
        have hb := hall b (by simp)
        have hc := hall c (by simp)
        subst ha
        subst hb
        subst hc
        exact ⟨rfl, rfl⟩

/-- Witness for C6: three scripted 500 responses. -/
theorem C6_three_attempts_then_error_witness :
    ((∀ e ∈ [some (⟨500, none⟩ : HttpResp), some ⟨500, none⟩, some ⟨500, none⟩],
        e = some (⟨500, none⟩ : HttpResp))
      ∧ 3 ≤ ([some (⟨500, none⟩ : HttpResp), some ⟨500, none⟩, some ⟨500, none⟩]).length)
    ∧ ((execRun false 3 [some ⟨500, none⟩, some ⟨500, none⟩, some ⟨500, none⟩]).1
          = some (.err 500)
      ∧ (execRun false 3 [some ⟨500, none⟩, some ⟨500, none⟩, some ⟨500, none⟩]).2.attempts
          = 3) :=
  ⟨⟨by decide, by decide⟩,
    C6_three_attempts_then_error
      [some ⟨500, none⟩, some ⟨500, none⟩, some ⟨500, none⟩] (by decide) (by decide)⟩

/-- Effective 429 wait: the `Retry-After` hint when it parses to a nonzero
number of seconds, else the fixed 2-second fallback. -/
def effWait (h : Option Nat) : Nat :=
  match h with
  | some v => if v = 0 then 2 else v
  | none => 2

theorem run429_unbounded (hints : List (Option Nat)) :
    ∀ (mR : Int) (backoff : Nat) (ls : Int) (tries : Nat) (trace : RunTrace),
      doRequestWithRetry false mR
          (hints.map (fun h => some ⟨429, h⟩) ++ [some ⟨200, none⟩])
          backoff ls tries trace
        = (some (.resp 200),
           ⟨trace.attempts + hints.length + 1,
            trace.sleeps429 ++ hints.map effWait,
            trace.backoffSleeps⟩) := by
  induction hints with
  | nil =>
    intro mR backoff ls tries trace
    simp [doRequestWithRetry]
  | cons h hs ih =>
    intro mR backoff ls tries trace
    have hw : (if (match h with | some v => v | none => 0) = 0 then 2
        else (match h with | some v => v | none => 0)) = effWait h := by
      cases h with
      | none => rfl
      | some v => rfl
    simp only [List.map_cons, List.cons_append, doRequestWithRetry]
    rw [hw]
    norm_num
    rw [ih]
    simp [List.append_assoc]
    omega

/-- C7: a 429 is always retried (unboundedly, regardless of the max-attempt
bound), sleeping the Retry-After hint when present and 2 seconds otherwise;
on the scripted sequence [429 Retry-After=1, 429 no hint, 200] the executor
returns the 200 result after sleeping 1s + 2s ≥ 1s + fallback; with
best-effort mode it gives up immediately with the empty (nil, nil) result. -/
theorem C7_429_always_retries :
    (∀ (hints : List (Option Nat)) (mR : Int),
      execRun false mR (hints.map (fun h => some ⟨429, h⟩) ++ [some ⟨200, none⟩])
        = (some (.resp 200), ⟨hints.length + 1, hints.map effWait, []⟩))
    ∧ execRun false 3 [some ⟨429, some 1⟩, some ⟨429, none⟩, some ⟨200, none⟩]
        = (some (.resp 200), ⟨3, [1, 2], []⟩)
    ∧ ((1 : Nat) + 2 ≤ ([1, 2] : List Nat).sum)
    ∧ (∀ (mR : Int) (h : Option Nat) (rest : List (Option HttpResp)),
        execRun true mR (some ⟨429, h⟩ :: rest) = (some .skip, ⟨1, [], []⟩)) := by
  refine ⟨?_, ?_, by decide, ?_⟩
  · intro hints mR
    have := run429_unbounded hints mR 1 0 0 ⟨0, [], []⟩
    simpa [execRun] using this
  · have := run429_unbounded [some 1, none] 3 1 0 0 ⟨0, [], []⟩
    simpa [execRun, effWait] using this
  · intro mR h rest
    rfl

/-! ### Backoff characterisation (C8)

The code doubles `backoff` only while it is `< 30` seconds, so the values are
1, 2, 4, 8, 16, 32, 32, …: the sixth and later backoff sleeps last 32 s,
which exceeds the nominal 30-second ceiling. -/

/-- C8 counterexample: with seven scripted 500 responses and `maxRetry = 7`
the executor performs backoff sleeps 1, 2, 4, 8, 16, 32 — the sixth sleep is
32 s > 30 s, refuting "no such sleep ever exceeds the 30-second ceiling". -/
theorem C8_backoff_ceiling_counterexample :
    (execRun false 7 (List.replicate 7 (some ⟨500, none⟩))).2.backoffSleeps
      = [1, 2, 4, 8, 16, 32]
    ∧ ¬ (∀ s ∈ (execRun false 7 (List.replicate 7 (some ⟨500, none⟩))).2.backoffSleeps,
          s ≤ 30) := by
  constructor
  · rfl
  · decide

/-- All backoff-sleep lists whose entries follow the doubling-capped-at-32
pattern. -/
def GoodSleeps (l : List Nat) : Prop :=
  ∀ i (h : i < l.length), l.get ⟨i, h⟩ = min (2 ^ i) 32

theorem goodSleeps_append {l : List Nat} (hl : GoodSleeps l) {b : Nat}
    (hb : b = min (2 ^ l.length) 32) : GoodSleeps (l ++ [b]) := by
  intro i h
  rw [List.length_append, List.length_singleton] at h
  by_cases hi : i < l.length
  · rw [List.get_eq_getElem, List.getElem_append_left hi]
    exact hl i hi
  · have hieq : i = l.length := by omega
    subst hieq
    rw [List.get_eq_getElem, List.getElem_concat_length l b _ rfl]
    exact hb

theorem backoff_next (k b : Nat) (hb : b = min (2 ^ k) 32) :
    (if b < 30 then b * 2 else b) = min (2 ^ (k + 1)) 32 := by
  by_cases hk : k ≤ 4
  · have h2k : 2 ^ k ≤ 16 := by
      calc 2 ^ k ≤ 2 ^ 4 := Nat.pow_le_pow_right (by omega) hk
        _ = 16 := by norm_num
    have h2k1 : 2 ^ (k + 1) = 2 ^ k * 2 := pow_succ 2 k
    have hpos : 0 < 2 ^ k := Nat.two_pow_pos k
    rw [if_pos (by omega)]
    omega
  · have h32 : 32 ≤ 2 ^ k := by
      calc (32 : Nat) = 2 ^ 5 := by norm_num
        _ ≤ 2 ^ k := Nat.pow_le_pow_right (by omega) (by omega)
    have h2k1 : 2 ^ (k + 1) = 2 ^ k * 2 := pow_succ 2 k
    rw [if_neg (by omega)]
    omega

theorem backoff_sleeps_inv (script : List (Option HttpResp)) :
    ∀ (skip : Bool) (mR : Int) (backoff : Nat) (ls : Int) (tries : Nat)
      (trace : RunTrace),
      backoff = min (2 ^ trace.backoffSleeps.length) 32 →
      GoodSleeps trace.backoffSleeps →
      GoodSleeps (doRequestWithRetry skip mR script backoff ls tries trace).2.backoffSleeps := by
  induction script with
  | nil =>
    intro skip mR backoff ls tries trace _ hgood
    exact hgood
  | cons e rest ih =>
    intro skip mR backoff ls tries trace hb hgood
    have hstep : GoodSleeps (trace.backoffSleeps ++ [backoff]) :=
      goodSleeps_append hgood hb
    have hnext : (if backoff < 30 then backoff * 2 else backoff)
        = min (2 ^ (trace.backoffSleeps ++ [backoff]).length) 32 := by
      rw [List.length_append, List.length_singleton]
      exact backoff_next _ _ hb
    have hnextA : backoff < 30 →
        backoff * 2 = min (2 ^ (trace.backoffSleeps ++ [backoff]).length) 32 := by
      intro hlt
      rw [← hnext, if_pos hlt]
    have hnextB : ¬ backoff < 30 →
        backoff = min (2 ^ (trace.backoffSleeps ++ [backoff]).length) 32 := by
      intro hlt
      rw [← hnext, if_neg hlt]
    cases e with
    | none =>
      simp only [doRequestWithRetry]
      split_ifs <;>
        first
        | exact hgood
        | exact ih _ mR _ _ (tries + 1) _ (hnextA (by assumption)) hstep
        | exact ih _ mR _ _ (tries + 1) _ (hnextB (by assumption)) hstep
    | some r =>
      simp only [doRequestWithRetry]
      split_ifs <;>
        first
        | exact hgood
        | exact ih _ mR _ _ (tries + 1) _ hb hgood
        | exact ih _ mR _ _ (tries + 1) _ (hnextA (by assumption)) hstep
        | exact ih _ mR _ _ (tries + 1) _ (hnextB (by assumption)) hstep

/-- C8 amended: every backoff sleep of the executor follows the pattern
`min (2^i) 32` — it starts at 1 s and doubles while below the 30 s threshold,
so it is capped at 32 s (not 30 s) from the sixth backoff sleep on. -/
theorem C8_backoff_pattern (skip : Bool) (mR : Int)
    (script : List (Option HttpResp)) (i : Nat)
    (h : i < (execRun skip mR script).2.backoffSleeps.length) :
    (execRun skip mR script).2.backoffSleeps.get ⟨i, h⟩ = min (2 ^ i) 32 := by
  have hinv := backoff_sleeps_inv script skip mR 1 0 0 ⟨0, [], []⟩
    (by norm_num) (fun i h => absurd h (by simp))
  exact hinv i h

/-- Witness for C8 amended: one 500 response, unbounded retries — the first
backoff sleep is 1 s. -/
theorem C8_backoff_pattern_witness :
    0 < (execRun false 0 [some ⟨500, none⟩]).2.backoffSleeps.length
    ∧ (execRun false 0 [some ⟨500, none⟩]).2.backoffSleeps.get
        ⟨0, by decide⟩ = min (2 ^ 0) 32 :=
  ⟨by decide, C8_backoff_pattern false 0 [some ⟨500, none⟩] 0 (by decide)⟩

/-! ### Best-effort (SKIP=true) behaviour and its call sites (C10)

`mainGoAnalyzeAccountFails` embeds the account call site of the web service
(`analyze`, main.go:198-201): `err != nil || resp == nil || (status != 200 &&
status != 404)` makes `analyze` return an error.  `cliAccountStep` embeds the
CLI account call site (part_003:540-551): a nil response is skipped with
`continue`, a non-nil non-200 response is fatal. -/

def mainGoAnalyzeAccountFails : ReqOutcome → Bool
  | .err _ => true
  | .skip => true
  | .resp s => decide (s ≠ 200 ∧ s ≠ 404)

inductive CliAction
  | fatal
  | skipPlayer
  | proceed
deriving DecidableEq

def cliAccountStep : ReqOutcome → CliAction
  | .err _ => .fatal
  | .skip => .skipPlayer
  | .resp s => if s = 200 then .proceed else .fatal

/-- C10 counterexample: with SKIP=true a 429 makes the executor return
(nil, nil), and the web service's account call site turns that into an
analyze error — it does not silently skip the current unit of work. -/
theorem C10_nil_nil_counterexample :
    (execRun true 3 [some ⟨429, none⟩]).1 = some ReqOutcome.skip
    ∧ (execRun true 3 [some ⟨429, none⟩]).2.sleeps429 = []
    ∧ mainGoAnalyzeAccountFails ReqOutcome.skip = true
    ∧ cliAccountStep ReqOutcome.skip = CliAction.skipPlayer := by
  exact ⟨rfl, rfl, rfl, rfl⟩

/-- C10 amended: with SKIP=true the executor returns (nil, nil) without any
sleep for 429, 5xx and transport failures alike; the CLI call sites skip the
current unit of work on a nil response, while the web service's analyze
account call site treats it as a failed lookup. -/
theorem C10_skip_mode (mR : Int) (rest : List (Option HttpResp)) :
    (∀ h : Option Nat,
        execRun true mR (some ⟨429, h⟩ :: rest) = (some .skip, ⟨1, [], []⟩))
    ∧ (∀ (s : Nat) (h : Option Nat), 500 ≤ s → s < 600 →
        execRun true mR (some ⟨s, h⟩ :: rest) = (some .skip, ⟨1, [], []⟩))
    ∧ execRun true mR (none :: rest) = (some .skip, ⟨1, [], []⟩)
    ∧ cliAccountStep ReqOutcome.skip = CliAction.skipPlayer
    ∧ mainGoAnalyzeAccountFails ReqOutcome.skip = true := by
  refine ⟨fun h => rfl, ?_, rfl, rfl, rfl⟩
  intro s h h500 h600
  have hs200 : ¬ (s = 200) := by omega
  have hs404 : ¬ (s = 404) := by omega
  have hs429 : ¬ (s = 429) := by omega
  simp only [execRun, doRequestWithRetry]
  simp [hs200, hs404, hs429, h500, h600]

/-- Witness for C10 amended at a concrete 503 response. -/
theorem C10_skip_mode_witness :
    ((500 : Nat) ≤ 503 ∧ (503 : Nat) < 600)
    ∧ execRun true 3 [some ⟨503, none⟩] = (some .skip, ⟨1, [], []⟩) :=
  ⟨⟨by decide, by decide⟩,
    (C10_skip_mode 3 []).2.1 503 none (by decide) (by decide)⟩

/-! ## Lane-unique team split for 10 players (part_003:1245-1392, main.go:411-469)

Player `i` (0 ≤ i ≤ 9) has skill score `scores.getD i 0` and preferred-lane
list `lanes.getD i []` (the player's `main_lanes`).  `comb arr n acc st`
mirrors the recursive closure: when `acc` has 5 members the candidate is
evaluated against the accumulated best *with the current `arr` as the
remaining players* — exactly as in the source, where the B-team loop ranges
over the `arr` parameter (the not-yet-examined suffix), not over the full
index list; members skipped earlier are in neither `acc` nor `arr`.  The
source's `inA` test inside the B loop is kept as the `filter`. -/

structure CombState where
  minDiff : Int
  bestA : List Nat
  bestB : List Nat
  bestAroles : List String
  bestBroles : List String
deriving DecidableEq

/-- First-fit role assignment for one team, in member order: each member takes
the first lane of their preference list not yet used within their own team;
`none` when some member finds no unused lane (`found == false`). -/
def assignRoles (lanes : List (List String)) : List Nat → List String → Option (List String)
  | [], _ => some []
  | idx :: restIdx, used =>
    match (lanes.getD idx []).find? (fun lane => !(used.contains lane)) with
    | none => none
    | some lane =>
      match assignRoles lanes restIdx (used ++ [lane]) with
      | none => none
      | some rs => some (lane :: rs)

/-- Candidate evaluation at `len(acc) == 5` (part_003:1262-1355):團 A is `acc`,
team B is what remains of `arr` (the source's `inA`-filtered `arr`); the
5-slot `rolesB` array keeps `""` in unfilled slots. -/
def evalCandidate (scores : List Int) (lanes : List (List String))
    (arr acc : List Nat) (st : CombState) : CombState :=
  let bList := arr.filter (fun idx => !(acc.contains idx))
  match assignRoles lanes acc [], assignRoles lanes bList [] with
  | some rolesA, some rolesB =>
    let sA := (acc.map (fun idx => scores.getD idx 0)).sum
    let sB := (bList.map (fun idx => scores.getD idx 0)).sum
    let d := |sA - sB|
    if d < st.minDiff then
      ⟨d, acc, bList, rolesA, rolesB ++ List.replicate (5 - rolesB.length) ""⟩
    else st
  | _, _ => st

/-- The recursive combination enumerator (part_003:1260-1366): evaluate when
`len(acc) == 5`, return on `n == 0` or an empty `arr`, else take-branch first,
then skip-branch, threading the mutable best state.  (Structured on `arr`;
when `arr = []` and `acc` is short the original returns `st` through either
the `n == 0` or the `len(arr) == 0` guard, which coincide here.) -/
def comb (scores : List Int) (lanes : List (List String)) :
    List Nat → Nat → List Nat → CombState → CombState
  | [], _, acc, st =>
    if acc.length = 5 then evalCandidate scores lanes [] acc st
    else st
  | x :: rest, n, acc, st =>
    if acc.length = 5 then evalCandidate scores lanes (x :: rest) acc st
    else if n = 0 then st
    else comb scores lanes rest n acc (comb scores lanes rest (n - 1) (acc ++ [x]) st)

/-- Top-level lane-unique split (part_003:1245-1392): run `comb` over indices
0..9 with `minDiff = 1 << 30`, then report the split only when both best teams
have 5 members (`len(bestA) == 5 && len(bestB) == 5`), else the
no-valid-split message. -/
def laneUniqueSplit (scores : List Int) (lanes : List (List String)) :
    Option (List Nat × List Nat × List String × List String) :=
  let final := comb scores lanes (List.range 10) 5 [] ⟨2 ^ 30, [], [], [], []⟩
  if final.bestA.length = 5 ∧ final.bestB.length = 5 then
    some (final.bestA, final.bestB, final.bestAroles, final.bestBroles)
  else none

/-- A roster on which the bug shows: player 0 has score 10, the rest 0, and
every player prefers all five canonical lanes in the same order, so every
5-vs-5 split admits a lane-unique assignment. -/
def failScores : List Int := [10, 0, 0, 0, 0, 0, 0, 0, 0, 0]

def allLanes : List String := ["T", "J", "M", "B", "S"]

def failLanes : List (List String) := List.replicate 10 allLanes

theorem comb_cons_unfold (scores : List Int) (lanes : List (List String))
    (x : Nat) (rest acc : List Nat) (n : Nat) (st : CombState)
    (hacc : ¬ acc.length = 5) (hn : ¬ n = 0) :
    comb scores lanes (x :: rest) n acc st
      = comb scores lanes rest n acc (comb scores lanes rest (n - 1) (acc ++ [x]) st) := by
  simp only [comb]
  rw [if_neg hacc, if_neg hn]

set_option maxRecDepth 400000 in
/-- C5 (code bug): on `failScores`/`failLanes` every 5-member team admits a
first-fit lane assignment — in particular the complement split
{0,1,2,3,4} vs {5,...,9} is feasible — yet `laneUniqueSplit` reports the
no-valid-split outcome: the winning candidate A = {1,2,3,4,5} was scored and
stored with B = {6,7,8,9}, because the source builds team B from the
remaining-suffix parameter `arr` instead of the complement of `acc`
(contradicting its own comment that "the rest" is team B), so `bestB` ends
with 4 members and the final `len(bestB) == 5` guard fails. -/
theorem C5_lane_unique_no_split_bug :
    laneUniqueSplit failScores failLanes = none
    ∧ (comb failScores failLanes (List.range 10) 5 [] ⟨2 ^ 30, [], [], [], []⟩).bestA
        = [1, 2, 3, 4, 5]
    ∧ (comb failScores failLanes (List.range 10) 5 [] ⟨2 ^ 30, [], [], [], []⟩).bestB
        = [6, 7, 8, 9]
    ∧ (assignRoles failLanes [0, 1, 2, 3, 4] []).isSome = true
    ∧ (assignRoles failLanes [5, 6, 7, 8, 9] []).isSome = true := by
  have h1 : comb failScores failLanes [1, 2, 3, 4, 5, 6, 7, 8, 9] 4 [0]
        ⟨2 ^ 30, [], [], [], []⟩
      = ⟨10, [0, 1, 2, 3, 4], [5, 6, 7, 8, 9],
          ["T", "J", "M", "B", "S"], ["T", "J", "M", "B", "S"]⟩ := by
    rfl
  have h2 : comb failScores failLanes [1, 2, 3, 4, 5, 6, 7, 8, 9] 5 []
        (⟨10, [0, 1, 2, 3, 4], [5, 6, 7, 8, 9],
          ["T", "J", "M", "B", "S"], ["T", "J", "M", "B", "S"]⟩ : CombState)
      = ⟨0, [1, 2, 3, 4, 5], [6, 7, 8, 9],
          ["T", "J", "M", "B", "S"], ["T", "J", "M", "B", ""]⟩ := by
    rfl
  have hrange : List.range 10 = [0, 1, 2, 3, 4, 5, 6, 7, 8, 9] := by rfl
  have hfull : comb failScores failLanes (List.range 10) 5 [] ⟨2 ^ 30, [], [], [], []⟩
      = ⟨0, [1, 2, 3, 4, 5], [6, 7, 8, 9],
          ["T", "J", "M", "B", "S"], ["T", "J", "M", "B", ""]⟩ := by
    have hstep : comb failScores failLanes (List.range 10) 5 [] ⟨2 ^ 30, [], [], [], []⟩
        = comb failScores failLanes [1, 2, 3, 4, 5, 6, 7, 8, 9] 5 []
            (comb failScores failLanes [1, 2, 3, 4, 5, 6, 7, 8, 9] 4 [0]
              ⟨2 ^ 30, [], [], [], []⟩) := by
      rw [hrange]
      exact comb_cons_unfold _ _ _ _ _ _ _ (by decide) (by decide)
    rw [hstep, h1, h2]
  refine ⟨?_, ?_, ?_, ?_, ?_⟩
  · simp only [laneUniqueSplit]
    rw [hfull]
    rfl
  · rw [hfull]
  · rw [hfull]
  · rfl
  · rfl

/-! ## Skill-score aggregation (part_003:953-978, main.go:270-359)

`rankData` is the player's own league entries, `parts` the per-participant
league-entry lists collected from recent matches (one list per distinct
participant), `ms` the player's mastery entries.  Go's `sort.Slice` descending
by champion points is modelled by `insertionSort` (the source sort is
unstable, but only the points of the top 3 matter and ties carry equal
points). -/

structure RankEntry where
  queueType : String
  tier : String
  rank : String
  leaguePoints : Int
deriving DecidableEq

structure MasteryEntry where
  championId : Int
  championLevel : Int
  championPoints : Int
deriving DecidableEq

/-- part_003:955-961: the first RANKED_SOLO_5x5 entry gives the current rank
score (the loop breaks on the first hit); 0 when absent. -/
def currentRankScoreOf (rankData : List RankEntry) : Int :=
  match rankData.find? (fun e => e.queueType == "RANKED_SOLO_5x5") with
  | some e => rankScore e.tier e.rank e.leaguePoints
  | none => 0

/-- part_003:928-935: a participant contributes the rank score of their first
solo-queue entry, or nothing when they have none. -/
def soloScore (l : List RankEntry) : Option Int :=
  (l.find? (fun e => e.queueType == "RANKED_SOLO_5x5")).map
    (fun e => rankScore e.tier e.rank e.leaguePoints)

/-- part_003:886-937: the `totalScore`/`count` accumulation over participants. -/
def collectTotals (parts : List (List RankEntry)) : Int × Int :=
  parts.foldl
    (fun tc l =>
      match soloScore l with
      | some s => (tc.1 + s, tc.2 + 1)
      | none => tc)
    (0, 0)

/-- part_003:967-976: sum of the champion points of the top 3 mastery entries
after sorting descending by points. -/
def topMasterySum (ms : List MasteryEntry) : Int :=
  (((ms.insertionSort (fun a b => b.championPoints ≤ a.championPoints)).take 3).map
    (fun m => m.championPoints)).sum

/-- part_003:953-978: `skillScore := currentRankScore*2 + avgRankScore +
topMastery/1000`, with `avgRankScore = totalScore / count` when `count > 0`
(Go truncating division) and 0 otherwise. -/
def skillScoreOf (rankData : List RankEntry) (parts : List (List RankEntry))
    (ms : List MasteryEntry) : Int :=
  let currentRankScore := currentRankScoreOf rankData
  let tc := collectTotals parts
  let avgRankScore := if 0 < tc.2 then tc.1.tdiv tc.2 else 0
  currentRankScore * 2 + avgRankScore + (topMasterySum ms).tdiv 1000

theorem collectTotals_foldl (parts : List (List RankEntry)) :
    ∀ (t c : Int),
      parts.foldl
          (fun tc l =>
            match soloScore l with
            | some s => (tc.1 + s, tc.2 + 1)
            | none => tc)
          (t, c)
        = (t + (parts.filterMap soloScore).sum,
           c + ((parts.filterMap soloScore).length : Int)) := by
  induction parts with
  | nil => intro t c; simp
  | cons l rest ih =>
    intro t c
    cases hs : soloScore l with
    | none =>
      simp only [List.foldl_cons, hs, List.filterMap_cons, ih]
    | some s =>
      simp only [List.foldl_cons, hs, List.filterMap_cons, ih]
      rw [Prod.mk.injEq]
      constructor
      · rw [List.sum_cons]
        ring
      · rw [List.length_cons]
        push_cast
        ring

theorem collectTotals_eq (parts : List (List RankEntry)) :
    collectTotals parts
      = ((parts.filterMap soloScore).sum, ((parts.filterMap soloScore).length : Int)) := by
  unfold collectTotals
  rw [collectTotals_foldl parts 0 0]
  simp

/-- C9: the final skill score is
`2 × currentRankScore + avgMatchRankScore + topMasterySum/1000` in truncating
integer arithmetic, where the average is the truncating mean of the collected
participant solo-rank scores (0 when none were collected), the current rank
score is the rank score of the player's solo entry (0 when absent), and
`topMasterySum` sums the points of the top-3 mastery entries by points. -/
theorem C9_skill_score_formula (rankData : List RankEntry)
    (parts : List (List RankEntry)) (ms : List MasteryEntry) :
    (skillScoreOf rankData parts ms
      = 2 * currentRankScoreOf rankData
        + (if (parts.filterMap soloScore).length ≠ 0 then
            (parts.filterMap soloScore).sum.tdiv ((parts.filterMap soloScore).length : Int)
          else 0)
        + (topMasterySum ms).tdiv 1000)
    ∧ (∃ ps : List Int, ps.Perm (ms.map (fun m => m.championPoints))
        ∧ ps.Sorted (· ≥ ·)
        ∧ topMasterySum ms = (ps.take 3).sum)
    ∧ (∀ e, rankData.find? (fun e => e.queueType == "RANKED_SOLO_5x5") = some e →
        currentRankScoreOf rankData = rankScore e.tier e.rank e.leaguePoints)
    ∧ (rankData.find? (fun e => e.queueType == "RANKED_SOLO_5x5") = none →
        currentRankScoreOf rankData = 0) := by
  refine ⟨?_, ?_, ?_, ?_⟩
  · unfold skillScoreOf
    rw [collectTotals_eq]
    by_cases hlen : (parts.filterMap soloScore).length = 0
    · simp [hlen, mul_comm]
    · have hpos : (0 : Int) < ((parts.filterMap soloScore).length : Int) := by
        have : 0 < (parts.filterMap soloScore).length := Nat.pos_of_ne_zero hlen
        exact_mod_cast this
      simp only [hpos, if_pos, hlen, ne_eq, not_false_iff, if_true]
      ring
  · refine ⟨((ms.insertionSort (fun a b => b.championPoints ≤ a.championPoints)).map
      (fun m => m.championPoints)), ?_, ?_, ?_⟩
    · exact (List.perm_insertionSort _ ms).map _
    · have hs : List.Sorted (fun a b : MasteryEntry => b.championPoints ≤ a.championPoints)
          (ms.insertionSort (fun a b => b.championPoints ≤ a.championPoints)) := by
        haveI : IsTotal MasteryEntry (fun a b => b.championPoints ≤ a.championPoints) :=
          ⟨fun a b => le_total _ _⟩
        haveI : IsTrans MasteryEntry (fun a b => b.championPoints ≤ a.championPoints) :=
          ⟨fun _ _ _ hab hbc => le_trans hbc hab⟩
        exact List.sorted_insertionSort _ ms
      rw [List.Sorted, List.pairwise_map]
      exact hs
    · unfold topMasterySum
      rw [List.map_take]
  · intro e he
    simp [currentRankScoreOf, he]
  · intro he
    simp [currentRankScoreOf, he]

/-- Witness for C9's solo-entry clause at a concrete league-entry list. -/
theorem C9_skill_score_formula_witness :
    (([⟨"RANKED_SOLO_5x5", "GOLD", "II", 50⟩] : List RankEntry).find?
        (fun e => e.queueType == "RANKED_SOLO_5x5")
      = some ⟨"RANKED_SOLO_5x5", "GOLD", "II", 50⟩)
    ∧ currentRankScoreOf [⟨"RANKED_SOLO_5x5", "GOLD", "II", 50⟩]
        = rankScore "GOLD" "II" 50 :=
  ⟨by decide,
    (C9_skill_score_formula [⟨"RANKED_SOLO_5x5", "GOLD", "II", 50⟩] [] []).2.2.1
      ⟨"RANKED_SOLO_5x5", "GOLD", "II", 50⟩ (by decide)⟩

end LolMatch
